import Mathlib

/-!
Verification of the mieruca-kokkai extraction / normalization / enrichment
pipeline against its natural-language specification.

Texts coming from the scraped DOM are modelled as `List Char` (the TypeScript
code manipulates JavaScript strings; we work on their character lists so that
prefix / infix / digit reasoning is structural).  Pure functions of the source
are translated one-to-one; browser / DOM / file-system / regex-engine
collaborators are explicit inputs.  Machine numbers are modelled as `Nat`/`Int`
(all numerals involved are tiny, far below any float-precision boundary).
-/

/-- Character-list representation of a JavaScript string. -/
abbrev Str := List Char

/-- Whitespace recognised by JavaScript `trim()` / `\s` (the subset relevant
to this code base: ASCII whitespace and the ideographic space U+3000). -/
def isJsSpace (c : Char) : Bool :=
  c = ' ' || c = '\t' || c = '\n' || c = '\r' || c = '\x0b' || c = '\x0c' || c = '　'

/-- Model of `String.prototype.trim`. -/
def trimStr (s : Str) : Str :=
  ((s.dropWhile isJsSpace).reverse.dropWhile isJsSpace).reverse

/-- Model of the regex test `/^\d+$/` (nonempty, all ASCII digits). -/
def isAllDigits (s : Str) : Bool :=
  !s.isEmpty && s.all Char.isDigit

/-- `parseInt` on a string of ASCII digits. -/
def parseDigits (s : Str) : Nat :=
  s.foldl (fun a c => a * 10 + (c.toNat - '0'.toNat)) 0

/-- ASCII lower-casing of one character (for case-insensitive `/i` regexes). -/
def lowerAscii (c : Char) : Char :=
  if 'A' ≤ c && c ≤ 'Z' then Char.ofNat (c.toNat + 32) else c

/-- ASCII lower-casing of a string. -/
def lowerStr (s : Str) : Str := s.map lowerAscii

/-- Model of `String.prototype.includes` (substring containment): `pat` occurs
as a contiguous substring of `s`. -/
def containsSub (pat : Str) : Str → Bool
  | [] => pat.isEmpty
  | c :: rest => pat.isPrefixOf (c :: rest) || containsSub pat rest

/-- The sentinel value `不明` ("unknown") used throughout the scraper. -/
def FUMEI : Str := "不明".data

/-- `PREFECTURES` from `src/constants.ts` — the 47 Japanese prefecture names. -/
def PREFECTURES : List Str :=
  ["北海道", "青森", "岩手", "宮城", "秋田", "山形", "福島", "茨城", "栃木",
   "群馬", "埼玉", "千葉", "東京", "神奈川", "新潟", "富山", "石川", "福井",
   "山梨", "長野", "岐阜", "静岡", "愛知", "三重", "滋賀", "京都", "大阪",
   "兵庫", "奈良", "和歌山", "鳥取", "島根", "岡山", "広島", "山口", "徳島",
   "香川", "愛媛", "高知", "福岡", "佐賀", "長崎", "熊本", "大分", "宮崎",
   "鹿児島", "沖縄"].map String.data

/-- The proportional-representation block names of the regex
`/（比）(北海道|東北|北関東|南関東|東京|北陸信越|東海|近畿|中国|四国|九州)/`. -/
def PROP_BLOCKS : List Str :=
  ["北海道", "東北", "北関東", "南関東", "東京", "北陸信越", "東海", "近畿",
   "中国", "四国", "九州"].map String.data

/-- The literal `（比）` searched for by the proportional-representation regex. -/
def HI_MARK : Str := "（比）".data

/-- The literal `比例` tested by `rawInfo.includes('比例')`. -/
def HIREI : Str := "比例".data

/-- One position of the search for `/（比）(block)/`: does the marker followed by
one of the block alternatives (tried in regex alternation order) match here? -/
def matchPropAt (s : Str) : Option Str :=
  if HI_MARK.isPrefixOf s then
    PROP_BLOCKS.find? (fun b => b.isPrefixOf (s.drop HI_MARK.length))
  else none

/-- Left-to-right scan of `rawInfo.match(/（比）(…block alternatives…)/)`,
returning the captured block name of the first match. -/
def propBlockMatch : Str → Option Str
  | [] => none
  | c :: rest =>
    match matchPropAt (c :: rest) with
    | some b => some b
    | none => propBlockMatch rest

/-- The prefecture loop of `parseElectionInfo`: the first `p ∈ ps` such that
`rawInfo` starts with `p` and the remainder is all digits, together with that
remainder (`rawInfo.slice(p.length)`). -/
def findPrefNum (ps : List Str) (rawInfo : Str) : Option (Str × Str) :=
  match ps with
  | [] => none
  | p :: rest =>
    if p.isPrefixOf rawInfo && isAllDigits (rawInfo.drop p.length) then
      some (p, rawInfo.drop p.length)
    else findPrefNum rest rawInfo

/-- Helper of `genericSplit`: scan for the lazy split point of
`/^(.+?)(\d+)$/` — the shortest nonempty prefix whose (nonempty) remainder is
all digits. -/
def genericSplitGo (acc : Str) : Str → Option (Str × Str)
  | [] => none
  | d :: rest =>
    if isAllDigits (d :: rest) then some (acc, d :: rest)
    else genericSplitGo (acc ++ [d]) rest

/-- Model of `rawInfo.match(/^(.+?)(\d+)$/)` (the generic trailing-digit
fallback of the classifier). -/
def genericSplit (s : Str) : Option (Str × Str) :=
  match s with
  | [] => none
  | c :: rest => genericSplitGo [c] rest

/-- The `system` discriminator of the election descriptor. -/
inductive ElectionSystem where
  | singleSeat
  | proportionalRepresentation
deriving DecidableEq, Repr

/-- The `election` object produced by `parseElectionInfo`. -/
structure Election where
  system : ElectionSystem
  prefecture : Option Str := none
  number : Option Str := none
  area : Option Str := none
deriving DecidableEq, Repr

/-- The full return value of `parseElectionInfo` (election descriptor plus the
optional election count surfaced by the purely-digit branch). -/
structure ElectionInfo where
  election : Election
  electionCount : Option Nat := none
deriving DecidableEq, Repr

/-- The descriptor returned on empty / sentinel input. -/
def unknownElectionInfo : ElectionInfo :=
  { election := { system := .singleSeat, prefecture := some FUMEI } }

/-- `parseElectionInfo` — the electoral-descriptor classifier.  Translated from
`HouseOfRepresentativesScraper.parseElectionInfo` (the `DietMemberScraper`
version in `src/scraper.ts` is semantically identical: its prefecture loop
tests the regex `^pref(\d+)$`, equivalent to the prefix-plus-digits test, and
its proportional branch returns the captured block or the raw text just as
`propMatch?.[1] || rawInfo` does). -/
def parseElectionInfo (rawInfo : Str) : ElectionInfo :=
  if rawInfo.isEmpty || rawInfo == FUMEI then
    unknownElectionInfo
  else if isAllDigits rawInfo then
    { election := { system := .singleSeat, prefecture := some FUMEI },
      electionCount := some (parseDigits rawInfo) }
  else if containsSub HI_MARK rawInfo || containsSub HIREI rawInfo then
    { election := { system := .proportionalRepresentation,
                    area := some ((propBlockMatch rawInfo).getD rawInfo) } }
  else
    match findPrefNum PREFECTURES rawInfo with
    | some (pref, num) =>
      { election := { system := .singleSeat, prefecture := some pref, number := some num } }
    | none =>
      if PREFECTURES.contains rawInfo then
        { election := { system := .singleSeat, prefecture := some rawInfo } }
      else
        match genericSplit rawInfo with
        | some (p, n) =>
          { election := { system := .singleSeat, prefecture := some p, number := some n } }
        | none =>
          { election := { system := .singleSeat, prefecture := some rawInfo } }

example : parseElectionInfo ("東京1".data) =
    { election := { system := .singleSeat, prefecture := some ("東京".data),
                    number := some ("1".data) } } := by decide

example : parseElectionInfo ("26".data) =
    { election := { system := .singleSeat, prefecture := some FUMEI },
      electionCount := some 26 } := by decide

example : parseElectionInfo [] = unknownElectionInfo := by decide

example : parseElectionInfo ("（比）東海".data) =
    { election := { system := .proportionalRepresentation,
                    area := some ("東海".data) } } := by decide

example : parseElectionInfo ("1.5".data) =
    { election := { system := .singleSeat, prefecture := some ("1.".data),
                    number := some ("5".data) } } := by decide

/-- The header-keyword list of `extractMembersFromPage`. -/
def HEADERS : List Str :=
  ["氏名", "議員氏名", "ふりがな", "フリガナ", "読み", "よみ", "会派",
   "選挙区", "政党", "都道府県"].map String.data

/-- `isHeaderKeyword` — a trimmed cell text shorter than 2 characters, or equal
to / starting with one of the fixed header keywords. -/
def isHeaderKeyword (text : Str) : Bool :=
  let t := trimStr text
  t.length < 2 || HEADERS.any (fun h => t == h || h.isPrefixOf t)

/-- The party-name list of the House-of-Representatives row extractor. -/
def PARTIES : List Str :=
  ["自由民主党", "立憲民主党", "公明党", "日本維新の会", "日本共産党",
   "国民民主党", "れいわ新選組", "社会民主党", "無所属", "無会派"].map String.data

/-- `isPartyKeyword` — the trimmed text contains one of the party names. -/
def isPartyKeyword (text : Str) : Bool :=
  PARTIES.any (fun keyword => containsSub keyword (trimStr text))

/-- The base URL `https://www.shugiin.go.jp` of `buildAbsoluteUrl`. -/
def BASE_URL : Str := "https://www.shugiin.go.jp".data

/-- Model of the case-insensitive regex test `/^https?:\/\//i`. -/
def startsWithHttpCI (s : Str) : Bool :=
  ("http://".data).isPrefixOf (lowerStr s) || ("https://".data).isPrefixOf (lowerStr s)

/-- Model of the case-insensitive regex test `/^(javascript|data):/i`. -/
def isJsOrDataScheme (s : Str) : Bool :=
  ("javascript:".data).isPrefixOf (lowerStr s) || ("data:".data).isPrefixOf (lowerStr s)

/-- The four-levels-up relative marker `../../../../`. -/
def DOTS4 : Str := "../../../../".data

/-- `buildAbsoluteUrl` — anchor-href resolution of the row extractor
(`HouseOfRepresentativesScraper.extractMembersFromPage`).  The first branch
passes absolute http(s) URLs through; the second rejects `javascript:` and
`data:` schemes to the empty string; the remaining branches rewrite relative
paths against the known base.  `replace('../../../../', …)` replaces the first
occurrence, which under the guard is the prefix at position 0, and
`replace(/^\.\.\/+/, '')` strips the leading `..` together with the maximal
run of slashes after it. -/
def buildAbsoluteUrl (relativeUrl : Str) : Str :=
  if startsWithHttpCI relativeUrl then relativeUrl
  else if isJsOrDataScheme relativeUrl then []
  else if DOTS4.isPrefixOf relativeUrl then
    BASE_URL ++ "/internet/".data ++ relativeUrl.drop DOTS4.length
  else if ("../".data).isPrefixOf relativeUrl then
    BASE_URL ++ "/internet/".data ++ ((relativeUrl.drop 2).dropWhile (· = '/'))
  else if ("/".data).isPrefixOf relativeUrl then
    BASE_URL ++ relativeUrl
  else
    BASE_URL ++ "/internet/itdb_annai.nsf/html/statics/syu/".data ++ relativeUrl

/-- Strip one trailing honorific `君` (`name.replace(/君$/, '')`). -/
def stripKun (s : Str) : Str :=
  if s.getLast? == some '君' then s.dropLast else s

/-- The dedup key of a raw row name: `name.replace(/君$/, '').trim()`. -/
def cleanNameOf (name : Str) : Str := trimStr (stripKun name)

/-- Helper of `splitWs`: accumulate the current word (reversed) while walking
the string. -/
def splitWsAux : Str → Str → List Str
  | [], acc => if acc.isEmpty then [] else [acc.reverse]
  | c :: rest, acc =>
    if isJsSpace c then
      if acc.isEmpty then splitWsAux rest [] else acc.reverse :: splitWsAux rest []
    else splitWsAux rest (c :: acc)

/-- Model of `s.split(/\s+/)` on an already-trimmed string (the maximal
whitespace-free words, in order). -/
def splitWs (s : Str) : List Str := splitWsAux s []

/-- The first `<a>` anchor of a table cell, as exposed by the page-source
collaborator: its text content and its `href` attribute. -/
structure CellLink where
  text : Str
  href : Str
deriving DecidableEq, Repr

/-- One table cell: its text content and, for the name cell, its first anchor
if any. -/
structure Cell where
  text : Str
  link : Option CellLink := none
deriving DecidableEq, Repr

/-- The `name` object of a raw member record. -/
structure RawName where
  full : Str
  last : Str
  first : Str
deriving DecidableEq, Repr

/-- An election count: the house count plus the optional senate count of the
compound `N（参M）` pattern. -/
structure ElectionCount where
  house : Nat
  senate : Option Nat := none
deriving DecidableEq, Repr

/-- `RawMemberData` — one pre-classification row record. -/
structure RawMemberData where
  name : RawName
  party : Str
  prefecture : Str
  furigana : Option Str := none
  profileUrl : Option Str := none
  electionCount : Option ElectionCount := none
deriving DecidableEq, Repr

/-- The party scan: cells 2 … min(5, length)−1, first cell whose trimmed text
is nonempty, not a header keyword and contains a party keyword; `不明`
otherwise.  `cells` are the trimmed cell texts. -/
def scanParty (cells : List Str) : Str :=
  (((cells.drop 2).take 3).find?
    (fun t => !t.isEmpty && !isHeaderKeyword t && isPartyKeyword t)).getD FUMEI

/-- Does a cell text match `pref + digits` for some known prefecture? -/
def isPrefNumCell (t : Str) : Bool :=
  PREFECTURES.any (fun p => p.isPrefixOf t && isAllDigits (t.drop p.length))

/-- First scan for the electoral district: any cell (all positions) that is
nonempty, not a header, not a party, and matches `pref + digits`. -/
def scanPrefecture1 (cells : List Str) : Option Str :=
  cells.find? (fun t =>
    !t.isEmpty && !isHeaderKeyword t && !isPartyKeyword t && isPrefNumCell t)

/-- Model of `text.replace(/\s+/g, '').match(/^(\d+)[（(]参(\d+)[）)]$/)`:
whitespace is removed, then the text must be digits, an opening parenthesis,
`参`, digits, and a closing parenthesis. -/
def senateMatch (t : Str) : Option (Nat × Nat) :=
  let s := t.filter (fun c => !isJsSpace c)
  let ds := s.takeWhile Char.isDigit
  if ds.isEmpty then none
  else
    match s.drop ds.length with
    | c :: '参' :: rest2 =>
      if c = '（' || c = '(' then
        let ds2 := rest2.takeWhile Char.isDigit
        if ds2.isEmpty then none
        else
          match rest2.drop ds2.length with
          | [c2] =>
            if c2 = '）' || c2 = ')' then some (parseDigits ds, parseDigits ds2)
            else none
          | _ => none
      else none
    | _ => none

/-- The election-count scan of `extractMembersFromPage`: first cell matching
the compound `N（参M）` pattern (no range check), otherwise first purely-digit
cell whose value lies in 1 … 25. -/
def scanElectionCount : List Str → Option ElectionCount
  | [] => none
  | t :: rest =>
    if !t.isEmpty then
      match senateMatch t with
      | some (h, s) => some { house := h, senate := some s }
      | none =>
        if isAllDigits t then
          let num := parseDigits t
          if 1 ≤ num && num ≤ 25 then some { house := num }
          else scanElectionCount rest
        else scanElectionCount rest
    else scanElectionCount rest

/-- Second district scan: any cell containing `（比）`. -/
def scanPrefecture2 (cells : List Str) : Option Str :=
  cells.find? (fun t => containsSub HI_MARK t)

/-- Third (fallback) district scan: cells from index 2 on, nonempty, not a
header, not a party, not purely digits, containing some prefecture name. -/
def scanPrefecture3 (cells : List Str) : Option Str :=
  (cells.drop 2).find? (fun t =>
    !t.isEmpty && !isHeaderKeyword t && !isPartyKeyword t && !isAllDigits t
      && PREFECTURES.any (fun p => containsSub p t))

/-- Model of `Array.prototype.join(' ')`. -/
def joinSpace : List Str → Str
  | [] => []
  | [w] => w
  | w :: rest => w ++ ' ' :: joinSpace rest

/-- Build the `RawMemberData` of one accepted row (everything after the dedup
check of `extractMembersFromPage`). -/
def buildMemberData (cells : List Cell) (cleanName href : Str) : RawMemberData :=
  let allCells := cells.map (fun c => trimStr c.text)
  let profileUrl := if href.isEmpty then [] else buildAbsoluteUrl href
  let furigana := match allCells with
    | _ :: c1 :: _ => c1
    | _ => []
  let prefecture :=
    match scanPrefecture1 allCells with
    | some p => p
    | none =>
      match scanPrefecture2 allCells with
      | some p => p
      | none => (scanPrefecture3 allCells).getD FUMEI
  let nameParts := splitWs cleanName
  { name := { full := cleanName,
              last := nameParts.headD [],
              first := joinSpace (nameParts.drop 1) },
    party := scanParty allCells,
    prefecture := prefecture,
    furigana := if !furigana.isEmpty && !isHeaderKeyword furigana then some furigana else none,
    profileUrl := if profileUrl.isEmpty then none else some profileUrl,
    electionCount := scanElectionCount allCells }

/-- The name and href read from the first cell of a row with at least 3 cells
(`extractNameFromCell`); `none` when the row has fewer than 3 cells. -/
def rowNameHref : List Cell → Option (Str × Str)
  | c0 :: _ :: _ :: _ =>
    some (match c0.link with
          | some l => (trimStr l.text, trimStr l.href)
          | none => (trimStr c0.text, []))
  | _ => none

/-- The per-page row loop of `extractMembersFromPage`, with the `seenMembers`
set carried explicitly (membership in the list models `Set.has`). -/
def extractGo : List (List Cell) → List Str → List RawMemberData
  | [], _ => []
  | row :: rest, seen =>
    match rowNameHref row with
    | none => extractGo rest seen
    | some (name, href) =>
      if name.isEmpty || isHeaderKeyword name then extractGo rest seen
      else
        let cleanName := cleanNameOf name
        if seen.contains cleanName then extractGo rest seen
        else buildMemberData row cleanName href :: extractGo rest (cleanName :: seen)

/-- `extractMembersFromPage` — the raw row extractor, as a pure function of the
rows (lists of cells) exposed by the page-source collaborator. -/
def extractMembersFromPage (rows : List (List Cell)) : List RawMemberData :=
  extractGo rows []

/-- The `seenMembers` set left after processing a list of rows. -/
def seenAfter : List (List Cell) → List Str → List Str
  | [], seen => seen
  | row :: rest, seen =>
    match rowNameHref row with
    | none => seenAfter rest seen
    | some (name, _) =>
      if name.isEmpty || isHeaderKeyword name then seenAfter rest seen
      else
        let cleanName := cleanNameOf name
        if seen.contains cleanName then seenAfter rest seen
        else seenAfter rest (cleanName :: seen)

/-- Helper of `collapseWs`: rebuild the string, emitting one `' '` per maximal
whitespace run. -/
def collapseWsAux : Str → Bool → Str
  | [], _ => []
  | c :: rest, inRun =>
    if isJsSpace c then
      if inRun then collapseWsAux rest true else ' ' :: collapseWsAux rest true
    else c :: collapseWsAux rest false

/-- Model of `replace(/\s+/g, ' ')`. -/
def collapseWs (s : Str) : Str := collapseWsAux s false

/-- The `cleanText` helper of `extractProfileFromPage`:
`text?.trim().replace(/\s+/g, ' ').replace(/[　　]/g, ' ') || ''`. -/
def cleanText (t : Str) : Str :=
  (collapseWs (trimStr t)).map (fun c => if c = '　' then ' ' else c)

/-- The enumeration separators `○`, `、`, `，` that `extractPositions` splits
sentences on. -/
def isPosSeparator (c : Char) : Bool :=
  c = '○' || c = '、' || c = '，'

/-- Helper of `splitSentences`: split, keeping empty chunks exactly as
`String.prototype.split` does. -/
def splitSentencesAux : Str → Str → List Str
  | [], acc => [acc.reverse]
  | c :: rest, acc =>
    if isPosSeparator c then acc.reverse :: splitSentencesAux rest []
    else splitSentencesAux rest (c :: acc)

/-- Model of `text.split(/[○、，]/)`. -/
def splitSentences (s : Str) : List Str := splitSentencesAux s []

/-- `extractPositions` — position titles harvested per sentence and keyword.
A sentence produced by the split contains no separator characters, so the
regex `([^、，]*keyword[^、，]*)` matches the whole sentence whenever the
keyword occurs in it; the trimmed sentence is collected once. -/
def extractPositions (text : Str) (keywords : List Str) : List Str :=
  (splitSentences text).foldl
    (fun positions sentence =>
      keywords.foldl
        (fun positions keyword =>
          if containsSub keyword sentence then
            let position := trimStr sentence
            if !position.isEmpty && !positions.contains position then
              positions ++ [position]
            else positions
          else positions)
        positions)
    []

/-- The kanji-numeral conversion table of `convertJapaneseNumber`. -/
def JP_NUMBER_MAP : List (Str × Nat) :=
  [("一", 1), ("二", 2), ("三", 3), ("四", 4), ("五", 5), ("六", 6), ("七", 7),
   ("八", 8), ("九", 9), ("十", 10), ("十一", 11), ("十二", 12), ("十三", 13),
   ("十四", 14), ("十五", 15), ("十六", 16), ("十七", 17), ("十八", 18),
   ("十九", 19), ("二十", 20)].map (fun kv => (kv.1.data, kv.2))

/-- `convertJapaneseNumber` — table lookup for the kanji numerals 1 … 20,
falling back to `parseInt` (leading decimal digits; 0 when that yields NaN). -/
def convertJapaneseNumber (japaneseNum : Str) : Nat :=
  match (JP_NUMBER_MAP.find? (fun kv => kv.1 == japaneseNum)).map (·.2) with
  | some n => n
  | none =>
    let ds := japaneseNum.takeWhile Char.isDigit
    if ds.isEmpty then 0 else parseDigits ds

/-- The `previousPositions` object of a member profile. -/
structure PreviousPositions where
  government : Option (List Str) := none
  party : Option (List Str) := none
  diet : Option (List Str) := none
deriving DecidableEq, Repr

/-- `MemberProfile` — the sparse optional-field profile record.  A field is
`none` exactly when the corresponding key was never assigned on the TS object,
so `Object.keys(profile).length` is the number of `some` fields. -/
structure MemberProfile where
  fullName : Option Str := none
  furigana : Option Str := none
  electionDistrict : Option Str := none
  partyAffiliation : Option Str := none
  birthDate : Option Str := none
  birthPlace : Option Str := none
  education : Option Str := none
  academicBackground : Option (List Str) := none
  university : Option Str := none
  previousPositions : Option PreviousPositions := none
  electionHistory : Option Str := none
  electionCount : Option Nat := none
  termNumbers : Option (List Str) := none
  achievements : Option (List Str) := none
  website : Option Str := none
  careerHistory : Option Str := none
  biography : Option Str := none
  additionalInfo : Option (List (Str × Str)) := none
deriving DecidableEq, Repr

/-- Count of assigned keys of a profile (`Object.keys(profile).length`). -/
def profileKeyCount (p : MemberProfile) : Nat :=
  (if p.fullName.isSome then 1 else 0) + (if p.furigana.isSome then 1 else 0)
  + (if p.electionDistrict.isSome then 1 else 0) + (if p.partyAffiliation.isSome then 1 else 0)
  + (if p.birthDate.isSome then 1 else 0) + (if p.birthPlace.isSome then 1 else 0)
  + (if p.education.isSome then 1 else 0) + (if p.academicBackground.isSome then 1 else 0)
  + (if p.university.isSome then 1 else 0) + (if p.previousPositions.isSome then 1 else 0)
  + (if p.electionHistory.isSome then 1 else 0) + (if p.electionCount.isSome then 1 else 0)
  + (if p.termNumbers.isSome then 1 else 0) + (if p.achievements.isSome then 1 else 0)
  + (if p.website.isSome then 1 else 0) + (if p.careerHistory.isSome then 1 else 0)
  + (if p.biography.isSome then 1 else 0) + (if p.additionalInfo.isSome then 1 else 0)

/-- The page content handed to the profile extractor by the browser
collaborator: the first `h2` heading (if any), the body text, and the `href`
of the first `a[href^="http"]` anchor (if any). -/
structure ProfilePage where
  headingText : Option Str := none
  bodyText : Str := []
  firstHttpHref : Option Str := none
deriving DecidableEq, Repr

/-- Outcomes of the JavaScript `RegExp` probes that `extractProfileFromPage`
runs over the cleaned heading / body text.  The regex engine is an external
builtin; these are its capture results, one field per probe, in source order:
`nameMatch` for `/^([^(（]+)[（(]([^)）]+)[）)]$/` on the heading,
`electionMatch` for `/([^、]+選出)[、，]([^、]+)/`,
`birthMatch` for `/(昭和|平成|令和)([^年]+年[^に]+に生まれる)/`,
`birthPlaceMatch` for `/年[^に]*([^に]+)に生まれる/` on `birthMatch`'s group 2,
`educationMatches` for the four education `matchAll` patterns (trimmed group 1,
in pattern order), `uniMatch` for `/([^、，]+大学)/` on the first education,
`electionHistoryMatch` for `/当選([^回]+回)[（(]([^）)]+)[）)]/`,
`countMatch` for `/([\d一二三四五六七八九十]+)回/` on its group 1,
`achievementMatches` for the `表彰` `matchAll` (whole matches),
`organizationMatches` for the `財` parenthetical `matchAll` (group 1), and
`dateMatch` for `/(令和\d+年\d+月現在)/`. -/
structure ContentMatches where
  nameMatch : Option (Str × Str) := none
  electionMatch : Option (Str × Str) := none
  birthMatch : Option (Str × Str) := none
  birthPlaceMatch : Option Str := none
  educationMatches : List Str := []
  uniMatch : Option Str := none
  electionHistoryMatch : Option (Str × Str) := none
  countMatch : Option Str := none
  achievementMatches : List Str := []
  organizationMatches : List Str := []
  dateMatch : Option Str := none
deriving DecidableEq, Repr

/-- Model of `Array.prototype.join('、')`. -/
def joinComma : List Str → Str
  | [] => []
  | [w] => w
  | w :: rest => w ++ '、' :: joinComma rest

/-- The government-position keywords. -/
def GOV_KEYWORDS : List Str :=
  ["政務次官", "副大臣", "大臣", "長官", "政務官"].map String.data

/-- The party-position keywords. -/
def PARTY_KEYWORDS : List Str :=
  ["部会長", "会長", "幹事長", "代理", "本部長", "調査会長", "総裁", "副総裁"].map String.data

/-- The Diet-position keywords. -/
def DIET_KEYWORDS : List Str :=
  ["委員長", "議長", "副議長", "議院運営委員長", "予算委員長", "審査会長"].map String.data

/-- `extractProfileFromPage` — the free-text profile field extractor of
`HouseOfRepresentativesScraper`, as a pure function of the page content and
the regex-probe outcomes.  Mirrors the assignment order and the guards of the
source; the final line models
`return Object.keys(profile).length > 0 ? profile : null`. -/
def extractProfileFromPage (pg : ProfilePage) (m : ContentMatches) : Option MemberProfile :=
  let contentText := cleanText pg.bodyText
  let p : MemberProfile := {}
  let p := match pg.headingText with
    | none => p
    | some ht =>
      match m.nameMatch with
      | some (n, f) => { p with fullName := some (trimStr n), furigana := some (trimStr f) }
      | none => { p with fullName := some (cleanText ht) }
  let p := match m.electionMatch with
    | some (d, a) =>
      { p with electionDistrict := some (trimStr d), partyAffiliation := some (trimStr a) }
    | none => p
  let p := match m.birthMatch with
    | some (era, rest) =>
      let p := { p with birthDate := some (era ++ rest) }
      match m.birthPlaceMatch with
      | some place => { p with birthPlace := some (trimStr place) }
      | none => p
    | none => p
  let p := match m.educationMatches with
    | [] => p
    | firstEducation :: _ =>
      if firstEducation.isEmpty then p
      else
        let p := { p with education := some firstEducation,
                          academicBackground := some m.educationMatches }
        match m.uniMatch with
        | some u => { p with university := some u }
        | none => p
  let govPositions := extractPositions contentText GOV_KEYWORDS
  let partyPositions := extractPositions contentText PARTY_KEYWORDS
  let dietPositions := extractPositions contentText DIET_KEYWORDS
  let p :=
    if !govPositions.isEmpty || !partyPositions.isEmpty || !dietPositions.isEmpty then
      let pp : PreviousPositions :=
        { government := if !govPositions.isEmpty then some govPositions else none,
          party := if !partyPositions.isEmpty then some partyPositions else none,
          diet := if !dietPositions.isEmpty then some dietPositions else none }
      { p with previousPositions := some pp }
    else p
  let p := match m.electionHistoryMatch with
    | some (times, terms) =>
      let p := { p with electionHistory := some ("当選".data ++ times) }
      let p := match m.countMatch with
        | some c => { p with electionCount := some (convertJapaneseNumber c) }
        | none => p
      let termNumbers := splitWs terms
      if !termNumbers.isEmpty then { p with termNumbers := some termNumbers } else p
    | none => p
  let achievements := (m.achievementMatches.filter (fun a => !a.isEmpty)).map trimStr
  let p := if !achievements.isEmpty then { p with achievements := some achievements } else p
  let organizations :=
    ((m.organizationMatches.filter (fun o =>
        !o.isEmpty && !containsSub ("年".data) o && !containsSub ("選挙".data) o)).map trimStr)
  let p := match pg.firstHttpHref with
    | some href =>
      if !href.isEmpty && !containsSub ("readspeaker".data) href then
        { p with website := some href }
      else p
    | none => p
  let p := { p with careerHistory := some contentText }
  let p := { p with biography := some contentText }
  let additionalInfo :=
    (if !organizations.isEmpty then [("関連組織".data, joinComma organizations)] else [])
    ++ (match m.dateMatch with
        | some d => [("情報更新日".data, d)]
        | none => [])
  let p := if !additionalInfo.isEmpty then { p with additionalInfo := some additionalInfo } else p
  if profileKeyCount p > 0 then some p else none

/-- Leading character of a URL scheme (ASCII letter), per the WHATWG URL
grammar used by the `new URL` builtin. -/
def isSchemeStart (c : Char) : Bool :=
  ('a' ≤ c && c ≤ 'z') || ('A' ≤ c && c ≤ 'Z')

/-- Subsequent character of a URL scheme. -/
def isSchemeChar (c : Char) : Bool :=
  isSchemeStart c || c.isDigit || c = '+' || c = '-' || c = '.'

/-- The scheme (lower-cased, without the colon) of a URL string, or `none`
when no scheme is present.  Models the protocol extraction of the external
`new URL` builtin; the `catch` branch of `scrapeProfile` maps an unparsable
URL to `null` just as a non-http(s) scheme is. -/
def urlScheme (url : Str) : Option Str :=
  match url with
  | [] => none
  | c :: rest =>
    if isSchemeStart c then
      let run := rest.takeWhile isSchemeChar
      match rest.drop run.length with
      | ':' :: _ => some (lowerStr (c :: run))
      | _ => none
    else none

/-- `['http:', 'https:'].includes(url.protocol)` of `scrapeProfile`'s security
check (with an unparsable URL also rejected). -/
def isHttpProtocol (url : Str) : Bool :=
  match urlScheme url with
  | some s => s == "http".data || s == "https".data
  | none => false

/-- `HouseOfRepresentativesMember` — a processed member record, the unit the
enrichment scheduler works on. -/
structure Member where
  name : Str
  party : Str
  election : Election := { system := .singleSeat }
  furigana : Option Str := none
  profileUrl : Option Str := none
  electionCount : Option ElectionCount := none
  profile : Option MemberProfile := none
deriving DecidableEq, Repr

/-- `scrapeProfile` — one profile fetch.  `browserInitialized` models
`this.browser`; `fetch` models the navigation plus `extractProfileFromPage`
on the fetched page, with every per-item failure (navigation error, timeout,
HTTP error, extraction error — all caught by the source's `try`/`catch`)
appearing as `none`. -/
def scrapeProfile (browserInitialized : Bool) (fetch : Str → Option MemberProfile)
    (profileUrl : Str) : Option MemberProfile :=
  if profileUrl.isEmpty || !browserInitialized then none
  else if !isHttpProtocol profileUrl then none
  else fetch profileUrl

/-- The scheduler's URL filter `members.filter((m) => m.profileUrl)`
(a present but empty `profileUrl` string is falsy). -/
def hasProfileUrl (m : Member) : Bool :=
  match m.profileUrl with
  | some url => !url.isEmpty
  | none => false

/-- The body of one batch task: fetch the member's profile and attach it on
success, leave the member untouched on failure. -/
def updateMember (fetch : Str → Option MemberProfile) (m : Member) : Member :=
  match m.profileUrl with
  | some url =>
    if url.isEmpty then m
    else
      match scrapeProfile true fetch url with
      | some profile => { m with profile := some profile }
      | none => m
  | none => m

/-- Normalization of the scheduler's `maxConcurrent` option:
`maxConcurrent = Math.max(1, Math.floor(Number(maxConcurrent) || 1))` applied
to the destructured default `maxConcurrent = 3` (options are modelled as
integers, so `Math.floor` is the identity and `Number(x) || 1` replaces the
falsy `0` by `1`). -/
def normMaxConcurrent (maxConcurrent : Option Int) : Nat :=
  let c : Int := maxConcurrent.getD 3
  (max 1 (if c = 0 then 1 else c)).toNat

/-- Normalization of the scheduler's `delay` option:
`delay = Math.max(0, Math.floor(Number(delay) || 0))` applied to the
destructured default `delay = 1000`. -/
def normDelay (delay : Option Int) : Nat :=
  let d : Int := delay.getD 1000
  (max 0 (if d = 0 then 0 else d)).toNat

/-- One observable step of the enrichment scheduler: a batch launched
concurrently and awaited as a whole (`Promise.all`), or an inter-batch wait
(`setTimeout`). -/
inductive SchedEvent where
  | batch (members : List Member)
  | delay (ms : Nat)
deriving DecidableEq, Repr

/-- The batch loop of `scrapeMultipleProfiles` over the URL-bearing member
list: slice off `maxConcurrent` members, run their tasks, and wait `delay`
milliseconds when more members remain (`i + maxConcurrent < length`) and the
delay is positive.  Returns the processed members in order together with the
event trace. -/
def runBatches (fetch : Str → Option MemberProfile) (delay maxConcurrent : Nat)
    (l : List Member) : List Member × List SchedEvent :=
  match l with
  | [] => ([], [])
  | x :: xs =>
    let slice := x :: xs.take (maxConcurrent - 1)
    let rest := xs.drop (maxConcurrent - 1)
    let processed := slice.map (updateMember fetch)
    let r := runBatches fetch delay maxConcurrent rest
    (processed ++ r.1,
     SchedEvent.batch slice ::
       (if !rest.isEmpty && delay > 0 then SchedEvent.delay delay :: r.2 else r.2))
termination_by l.length
decreasing_by simp [List.length_drop]; omega

/-- Merge the processed URL-bearing members back into the full list.  The TS
code mutates the filtered members in place through shared references; since
`filter` preserves order, the k-th URL-bearing position of the array ends up
holding the k-th processed member. -/
def mergeUpdated : List Member → List Member → List Member
  | [], _ => []
  | m :: ms, ps =>
    if hasProfileUrl m then
      match ps with
      | p :: ps' => p :: mergeUpdated ms ps'
      | [] => m :: mergeUpdated ms []
    else m :: mergeUpdated ms ps

/-- `scrapeMultipleProfiles` — the batch enrichment scheduler.  Throws
(`Except.error`) exactly when the browser session is not initialized;
otherwise filters the URL-bearing members, processes them in batches and
returns the final member array (in-place mutation modelled by `mergeUpdated`)
together with the scheduling trace. -/
def scrapeMultipleProfiles (browserInitialized : Bool)
    (fetch : Str → Option MemberProfile) (members : List Member)
    (maxConcurrent delay : Option Int) :
    Except Str (List Member × List SchedEvent) :=
  let mc := normMaxConcurrent maxConcurrent
  let d := normDelay delay
  if !browserInitialized then Except.error ("Browser not initialized".data)
  else
    let membersWithProfiles := members.filter hasProfileUrl
    let r := runBatches fetch d mc membersWithProfiles
    Except.ok (mergeUpdated members r.1, r.2)

/-- Consecutive chunks of size `c` (the last one possibly shorter); the
partition the spec describes.  Meaningful for `c ≥ 1`. -/
def chunksOf (c : Nat) (l : List α) : List (List α) :=
  match l with
  | [] => []
  | x :: xs => (x :: xs.take (c - 1)) :: chunksOf c (xs.drop (c - 1))
termination_by l.length
decreasing_by simp [List.length_drop]; omega

/-- The event trace the spec describes (follows the spec's words, for
comparison with the trace the code produces): one batch event per chunk, with
a delay event strictly between consecutive batches — never after the last —
whenever the normalized delay is positive. -/
def batchTrace (d : Nat) : List (List Member) → List SchedEvent
  | [] => []
  | [b] => [SchedEvent.batch b]
  | b :: bs =>
    SchedEvent.batch b ::
      (if d > 0 then SchedEvent.delay d :: batchTrace d bs else batchTrace d bs)

/-- A JSON value, the result of `JSON.parse` on a cache file. -/
inductive JsonValue where
  | jnull
  | jbool (b : Bool)
  | jnum (n : Int)
  | jstr (s : Str)
  | jarr (elems : List JsonValue)
  | jobj (fields : List (Str × JsonValue))

/-- File metadata (`statSync`): the last-modified time in milliseconds. -/
structure FileStat where
  mtimeMs : Int
deriving DecidableEq, Repr

/-- One on-disk file as the cache gate sees it: its stat data and the result
of `JSON.parse` on its content (`none` models a parse error — `JSON.parse` is
an external builtin whose throw the source catches). -/
structure FsFile where
  stat : FileStat
  content : Option JsonValue

/-- The file-system collaborator: the files of the `out` directory keyed by
file name, plus the current clock (`Date.now()`, milliseconds). -/
structure FileSystem where
  files : List (Str × FsFile)
  nowMs : Int

/-- `existsSync` + lookup: the file stored under a name, if any. -/
def fsLookup (fs : FileSystem) (name : Str) : Option FsFile :=
  (fs.files.find? (fun kv => kv.1 == name)).map (·.2)

/-- `isCacheValid` — the file exists and
`Date.now() − mtime < maxAgeHours * 60 * 60 * 1000`. -/
def isCacheValid (fs : FileSystem) (filePath : Str) (maxAgeHours : Int := 24) : Bool :=
  match fsLookup fs filePath with
  | none => false
  | some f =>
    let maxAgeMs := maxAgeHours * 60 * 60 * 1000
    let fileAge := fs.nowMs - f.stat.mtimeMs
    if fileAge < maxAgeMs then true else false

/-- Field lookup on a parsed JSON object. -/
def jsonField (fields : List (Str × JsonValue)) (key : Str) : Option JsonValue :=
  (fields.find? (fun kv => kv.1 == key)).map (·.2)

/-- The schema validation of `loadCachedData`: the parsed value is an object
with an array `members`, a string `scrapedAt` and a string `source`. -/
def isSchemaValid (v : JsonValue) : Bool :=
  match v with
  | .jobj fields =>
    (match jsonField fields ("members".data) with
     | some (.jarr _) => true
     | _ => false)
    && (match jsonField fields ("scrapedAt".data) with
        | some (.jstr _) => true
        | _ => false)
    && (match jsonField fields ("source".data) with
        | some (.jstr _) => true
        | _ => false)
  | _ => false

/-- `loadCachedData` — read the cache file, parse it and schema-validate it;
every failure (missing file, parse error, schema mismatch) yields `null`
rather than an error. -/
def loadCachedData (fs : FileSystem) (filename : Str) : Option JsonValue :=
  match fsLookup fs filename with
  | none => none
  | some f =>
    match f.content with
    | none => none
    | some v => if isSchemaValid v then some v else none

/-- The options of the cache gate, with their documented defaults
(`maxAgeHours = 24`, `forceRefresh = false`). -/
structure CacheOptions where
  maxAgeHours : Option Int := none
  forceRefresh : Option Bool := none

/-- The return value of `shouldUseCachedData`. -/
structure CacheDecision where
  useCache : Bool
  cachedData : Option JsonValue

/-- `shouldUseCachedData` — the cache gate: unconditional miss on
`forceRefresh`, then TTL check, then load-and-validate. -/
def shouldUseCachedData (fs : FileSystem) (filename : Str)
    (options : CacheOptions := {}) : CacheDecision :=
  let maxAgeHours := options.maxAgeHours.getD 24
  let forceRefresh := options.forceRefresh.getD false
  if forceRefresh then { useCache := false, cachedData := none }
  else if !isCacheValid fs filename maxAgeHours then
    { useCache := false, cachedData := none }
  else
    match loadCachedData fs filename with
    | none => { useCache := false, cachedData := none }
    | some cachedData => { useCache := true, cachedData := some cachedData }

/-- Well-formedness of an election descriptor: exactly the single-seat shape
(prefecture populated, no area) or the proportional shape (area populated,
no prefecture and no number). -/
def validDescriptor (e : Election) : Prop :=
  (e.system = .singleSeat ∧ e.prefecture.isSome = true ∧ e.area = none)
  ∨ (e.system = .proportionalRepresentation ∧ e.area.isSome = true
      ∧ e.prefecture = none ∧ e.number = none)

/-- C7: the district classifier is a total deterministic function (it is a
Lean function, hence deterministic and never-throwing); every input yields a
valid descriptor, and the empty string and the `不明` sentinel both yield the
single-seat descriptor with the sentinel prefecture and no district number. -/
theorem claim_C7_classifier_total_valid (rawInfo : Str) :
    validDescriptor (parseElectionInfo rawInfo).election
    ∧ parseElectionInfo [] = unknownElectionInfo
    ∧ parseElectionInfo FUMEI = unknownElectionInfo := by
  refine ⟨?_, by decide, by decide⟩
  unfold parseElectionInfo unknownElectionInfo validDescriptor
  repeat' split
  all_goals simp

/-- C8: `forceRefresh` short-circuits the cache gate to `{false, null}` for
every file-system state (in particular without consulting it), and an entry
whose age is at or past the `maxAgeHours` threshold (default 24) is never
used. -/
theorem claim_C8_force_refresh_and_ttl (fs : FileSystem) (filename : Str)
    (options : CacheOptions) :
    (options.forceRefresh = some true →
       (shouldUseCachedData fs filename options).useCache = false
       ∧ (shouldUseCachedData fs filename options).cachedData = none)
    ∧ (∀ f, fsLookup fs filename = some f →
        (options.maxAgeHours.getD 24) * 60 * 60 * 1000 ≤ fs.nowMs - f.stat.mtimeMs →
        (shouldUseCachedData fs filename options).useCache = false) := by
  constructor
  · intro h
    simp [shouldUseCachedData, h]
  · intro f hf hage
    have hvalid : isCacheValid fs filename (options.maxAgeHours.getD 24) = false := by
      unfold isCacheValid
      rw [hf]
      simp only
      split
      · omega
      · rfl
    by_cases hforce : options.forceRefresh.getD false = true
    · simp [shouldUseCachedData, hforce]
    · simp [shouldUseCachedData, hforce, hvalid]

/-- C8 witness: a file last modified exactly `24` hours ago (the default
threshold) is rejected, and `forceRefresh` rejects even a fresh file. -/
theorem claim_C8_force_refresh_and_ttl_witness :
    (shouldUseCachedData
        { files := [("cache.json".data,
                     { stat := { mtimeMs := 0 }, content := none })],
          nowMs := 86400000 }
        ("cache.json".data) {}).useCache = false
    ∧ (shouldUseCachedData
        { files := [("cache.json".data,
                     { stat := { mtimeMs := 86000000 }, content := none })],
          nowMs := 86400000 }
        ("cache.json".data) { forceRefresh := some true }).useCache = false := by
  constructor
  · exact (claim_C8_force_refresh_and_ttl _ _ _).2
      { stat := { mtimeMs := 0 }, content := none } rfl (by decide)
  · exact ((claim_C8_force_refresh_and_ttl _ _ _).1 rfl).1

/-- C9: a cache file whose content fails to parse, or parses to a value
without the required `members` array / `scrapedAt` string / `source` string,
is treated as cache-absent: `loadCachedData` yields `null` and the gate
answers `{false, null}`; no error escapes (the model functions are total). -/
theorem claim_C9_corrupt_cache_is_miss (fs : FileSystem) (filename : Str)
    (options : CacheOptions) (f : FsFile)
    (hf : fsLookup fs filename = some f)
    (hbad : f.content = none ∨ ∃ v, f.content = some v ∧ isSchemaValid v = false) :
    loadCachedData fs filename = none
    ∧ (shouldUseCachedData fs filename options).useCache = false
    ∧ (shouldUseCachedData fs filename options).cachedData = none := by
  have hload : loadCachedData fs filename = none := by
    rcases hbad with h | ⟨v, hv, hbadv⟩
    · simp [loadCachedData, hf, h]
    · simp [loadCachedData, hf, hv, hbadv]
  refine ⟨hload, ?_⟩
  by_cases hforce : options.forceRefresh.getD false = true
  · simp [shouldUseCachedData, hforce]
  · by_cases hvalid : isCacheValid fs filename (options.maxAgeHours.getD 24) = true
    · simp [shouldUseCachedData, hforce, hvalid, hload]
    · simp [shouldUseCachedData, hforce, hvalid]

/-- A schema-invalid cache file (an object without a `members` array). -/
def cacheFileCorrupt : FsFile :=
  { stat := { mtimeMs := 0 },
    content := some (JsonValue.jobj [("scrapedAt".data, JsonValue.jstr [])]) }

/-- A file system holding only the schema-invalid cache file. -/
def cacheFsCorrupt : FileSystem :=
  { files := [("cache.json".data, cacheFileCorrupt)], nowMs := 0 }

/-- C9 witness: a present, fresh file holding a schema-invalid object (no
`members` array) yields a cache miss. -/
theorem claim_C9_corrupt_cache_is_miss_witness :
    loadCachedData cacheFsCorrupt ("cache.json".data) = none :=
  (claim_C9_corrupt_cache_is_miss cacheFsCorrupt ("cache.json".data) {}
    cacheFileCorrupt rfl (Or.inr ⟨JsonValue.jobj [("scrapedAt".data, JsonValue.jstr [])], rfl, rfl⟩)).1

/-- C1 (code evaluated at the failing inputs): the compound `N（参M）` row-cell
pattern carries no range check, so the cell `26（参1）` produces the election
count `{house: 26, senate: 1}` with a component outside 1 … 25, and the
classifier's purely-digit branch likewise carries none, so the district cells
`26` and `0` produce election counts 26 and 0.  Only the bare-digit row-cell
path enforces the range (so `0`, `26`, `1.5` yield no count there). -/
theorem claim_C1_range_check_missing :
    scanElectionCount [("26（参1）".data)] = some { house := 26, senate := some 1 }
    ∧ (parseElectionInfo ("26".data)).electionCount = some 26
    ∧ (parseElectionInfo ("0".data)).electionCount = some 0
    ∧ scanElectionCount [("0".data)] = none
    ∧ scanElectionCount [("26".data)] = none
    ∧ scanElectionCount [("1.5".data)] = none := by
  decide

/-- C3 (code evaluated at the failing input): on an empty profile page (no
heading, empty body text, no links, no probe matches) `extractProfileFromPage`
returns a profile object whose only keys are the unconditionally-assigned
`careerHistory` and `biography`, both holding the empty string — not the
absent value `null` that the claim (and the repo's own test
"extractProfileFromPage should return null for empty page") requires. -/
theorem claim_C3_empty_page_not_null :
    extractProfileFromPage {} {} =
      some { careerHistory := some [], biography := some [] } := by
  decide

/-- A prefix of `a` is a prefix of `a ++ b`. -/
theorem isPrefixOf_append_of_isPrefixOf {p a : Str} (b : Str)
    (h : p.isPrefixOf a = true) : p.isPrefixOf (a ++ b) = true := by
  rw [List.isPrefixOf_iff_prefix] at h ⊢
  exact h.trans (List.prefix_append a b)

/-- Every rewrite of `buildAbsoluteUrl` that glues onto the base produces a
string that passes the http(s) test. -/
theorem startsWithHttpCI_base_append (rest : Str) :
    startsWithHttpCI (BASE_URL ++ rest) = true := by
  unfold startsWithHttpCI lowerStr
  rw [List.map_append]
  have h : ("https://".data).isPrefixOf (List.map lowerAscii BASE_URL) = true := by decide
  rw [isPrefixOf_append_of_isPrefixOf (List.map lowerAscii rest) h]
  simp

/-- A nonempty prefix pins down the first character of a string. -/
theorem head_eq_of_isPrefixOf {c : Char} {p s : Str}
    (h : (c :: p).isPrefixOf s = true) : ∃ t, s = c :: t := by
  match s with
  | [] => simp [List.isPrefixOf] at h
  | d :: t =>
    simp only [List.isPrefixOf, Bool.and_eq_true, beq_iff_eq] at h
    exact ⟨t, by rw [h.1]⟩

/-- A `javascript:` or `data:` href never passes the http(s) test (the two
regexes require different first characters). -/
theorem not_http_of_jsOrData {s : Str} (h : isJsOrDataScheme s = true) :
    startsWithHttpCI s = false := by
  unfold isJsOrDataScheme at h
  unfold startsWithHttpCI
  rcases Bool.or_eq_true_iff.mp h with hj | hd
  · obtain ⟨t, ht⟩ := head_eq_of_isPrefixOf hj
    rw [ht]
    rfl
  · obtain ⟨t, ht⟩ := head_eq_of_isPrefixOf hd
    rw [ht]
    rfl

/-- C2 counterexample: the absolute URL `ftp://evil.example/x` has the
non-http(s) scheme `ftp`, yet `buildAbsoluteUrl` does not map it to the empty
string — it treats it as a page-relative path and glues it under the base. -/
theorem claim_C2_counterexample :
    urlScheme ("ftp://evil.example/x".data) = some ("ftp".data)
    ∧ buildAbsoluteUrl ("ftp://evil.example/x".data)
        = ("https://www.shugiin.go.jp/internet/itdb_annai.nsf/html/statics/syu/ftp://evil.example/x".data)
    ∧ buildAbsoluteUrl ("ftp://evil.example/x".data) ≠ [] := by
  refine ⟨by decide, by decide, by decide⟩

/-- C2 (amended): `buildAbsoluteUrl` always returns the empty string or an
absolute http(s) URL, and `javascript:`/`data:` hrefs are rejected to the
empty string; a non-http(s) absolute URL, however, is not rejected — it falls
through to the relative-path branches (see the counterexample). -/
theorem claim_C2_url_resolution (href : Str) :
    (buildAbsoluteUrl href = [] ∨ startsWithHttpCI (buildAbsoluteUrl href) = true)
    ∧ (isJsOrDataScheme href = true → buildAbsoluteUrl href = []) := by
  constructor
  · unfold buildAbsoluteUrl
    split
    · rename_i h
      exact Or.inr h
    · split
      · exact Or.inl rfl
      · split
        · exact Or.inr (by rw [List.append_assoc]; exact startsWithHttpCI_base_append _)
        · split
          · exact Or.inr (by rw [List.append_assoc]; exact startsWithHttpCI_base_append _)
          · split
            · exact Or.inr (startsWithHttpCI_base_append _)
            · exact Or.inr (by rw [List.append_assoc]; exact startsWithHttpCI_base_append _)
  · intro h
    unfold buildAbsoluteUrl
    rw [not_http_of_jsOrData h, h]
    simp

/-- C2 witness: a `javascript:` href is rejected to the empty string. -/
theorem claim_C2_url_resolution_witness :
    isJsOrDataScheme ("javascript:alert(1)".data) = true
    ∧ buildAbsoluteUrl ("javascript:alert(1)".data) = [] :=
  ⟨by decide, (claim_C2_url_resolution ("javascript:alert(1)".data)).2 (by decide)⟩

/-- The processed-member component of the batch loop is the per-member update
mapped over the list: batching changes scheduling only, not results. -/
theorem runBatches_fst (fetch : Str → Option MemberProfile) (delay c : Nat) :
    ∀ (l : List Member), (runBatches fetch delay c l).1 = l.map (updateMember fetch)
  | [] => by simp [runBatches]
  | x :: xs => by
    rw [runBatches]
    simp only
    rw [runBatches_fst fetch delay c (xs.drop (c - 1))]
    rw [← List.map_append, List.cons_append, List.take_append_drop]
termination_by l => l.length
decreasing_by simp [List.length_drop]; omega

/-- Merging the updated URL-bearing members back into the full array equals
updating each URL-bearing member in place. -/
theorem mergeUpdated_filter_map (fetch : Str → Option MemberProfile) :
    ∀ (members : List Member),
      mergeUpdated members ((members.filter hasProfileUrl).map (updateMember fetch))
        = members.map (fun m => if hasProfileUrl m then updateMember fetch m else m)
  | [] => rfl
  | m :: ms => by
    by_cases h : hasProfileUrl m
    · simp [mergeUpdated, List.filter_cons, h, mergeUpdated_filter_map fetch ms]
    · simp [mergeUpdated, List.filter_cons, h, mergeUpdated_filter_map fetch ms]

/-- C4: the enrichment scheduler throws exactly when the browser session is
not initialized; with a session it settles every URL-bearing member
independently — the final array is the in-place per-member update — and a
member whose fetch fails (the oracle returns nothing: network error, timeout,
fetch finding nothing) or whose URL has a non-http(s) scheme is left with its
`.profile` unchanged while all other members are still processed. -/
theorem claim_C4_failure_isolation (fetch : Str → Option MemberProfile)
    (members : List Member) (maxConcurrent delay : Option Int) :
    scrapeMultipleProfiles false fetch members maxConcurrent delay
      = Except.error ("Browser not initialized".data)
    ∧ scrapeMultipleProfiles true fetch members maxConcurrent delay
      = Except.ok
          (members.map (fun m => if hasProfileUrl m then updateMember fetch m else m),
           (runBatches fetch (normDelay delay) (normMaxConcurrent maxConcurrent)
              (members.filter hasProfileUrl)).2)
    ∧ (∀ (m : Member) (url : Str), m.profileUrl = some url →
        (fetch url = none ∨ isHttpProtocol url = false) →
        updateMember fetch m = m) := by
  refine ⟨rfl, ?_, ?_⟩
  · unfold scrapeMultipleProfiles
    simp only [Bool.not_true, Bool.false_eq_true, if_false, ite_false]
    rw [runBatches_fst, mergeUpdated_filter_map]
  · intro m url hurl hfail
    unfold updateMember
    rw [hurl]
    by_cases hempty : url.isEmpty = true
    · simp [hempty]
    · have : scrapeProfile true fetch url = none := by
        unfold scrapeProfile
        rcases hfail with hf | hp
        · simp [hempty, hf]
        · simp [hempty, hp]
      simp [hempty, this]

/-- A fetch oracle that always fails. -/
def fetchAlwaysFails : Str → Option MemberProfile := fun _ => none

/-- A member pointing at a non-http(s) profile URL. -/
def memberFtpUrl : Member :=
  { name := "議員A".data, party := FUMEI, profileUrl := some ("ftp://x".data) }

/-- C4 witness: with the failing oracle, a member with an `ftp:` URL keeps its
(unset) profile, and an uninitialized browser is the only throwing case. -/
theorem claim_C4_failure_isolation_witness :
    updateMember fetchAlwaysFails memberFtpUrl = memberFtpUrl
    ∧ scrapeMultipleProfiles false fetchAlwaysFails [memberFtpUrl] none none
        = Except.error ("Browser not initialized".data) :=
  ⟨(claim_C4_failure_isolation fetchAlwaysFails [memberFtpUrl] none none).2.2
      memberFtpUrl ("ftp://x".data) rfl (Or.inl rfl),
   (claim_C4_failure_isolation fetchAlwaysFails [memberFtpUrl] none none).1⟩

/-- The normalized concurrency is a positive integer. -/
theorem normMaxConcurrent_pos (maxConcurrent : Option Int) :
    1 ≤ normMaxConcurrent maxConcurrent := by
  unfold normMaxConcurrent
  have h : (1 : Int) ≤ max 1 (if maxConcurrent.getD 3 = 0 then 1 else maxConcurrent.getD 3) :=
    le_max_left _ _
  exact Int.toNat_le_toNat h

/-- `chunksOf` produces no chunks exactly on the empty list. -/
theorem chunksOf_eq_nil_iff (c : Nat) (l : List Member) :
    chunksOf c l = [] ↔ l = [] := by
  constructor
  · intro h
    cases l with
    | nil => rfl
    | cons x xs => rw [chunksOf] at h; simp at h
  · intro h
    rw [h, chunksOf]

/-- The event trace of the batch loop is exactly the spec-worded trace over
the consecutive chunks: one batch event per chunk, a delay strictly between
consecutive batches when the delay is positive, and nothing after the last. -/
theorem runBatches_snd (fetch : Str → Option MemberProfile) (delay c : Nat) :
    ∀ (l : List Member), (runBatches fetch delay c l).2 = batchTrace delay (chunksOf c l)
  | [] => by rw [runBatches, chunksOf]; rfl
  | x :: xs => by
    rw [runBatches, chunksOf]
    simp only
    rw [runBatches_snd fetch delay c (xs.drop (c - 1))]
    by_cases hrest : xs.drop (c - 1) = []
    · rw [hrest]
      simp [batchTrace, chunksOf]
    · have hch : chunksOf c (xs.drop (c - 1)) ≠ [] := by
        rw [Ne, chunksOf_eq_nil_iff]
        exact hrest
      match hc : chunksOf c (xs.drop (c - 1)) with
      | [] => exact absurd hc hch
      | b :: bs =>
        have hne : xs.drop (c - 1) ≠ [] := hrest
        simp [batchTrace, hne, List.isEmpty_iff]
termination_by l => l.length
decreasing_by simp [List.length_drop]; omega

/-- The chunks concatenate back to the original list. -/
theorem chunksOf_join (c : Nat) :
    ∀ (l : List Member), (chunksOf c l).flatten = l
  | [] => by rw [chunksOf]; rfl
  | x :: xs => by
    rw [chunksOf]
    rw [List.flatten_cons]
    rw [chunksOf_join c (xs.drop (c - 1))]
    rw [List.cons_append, List.take_append_drop]
termination_by l => l.length
decreasing_by simp [List.length_drop]; omega

/-- Every chunk is nonempty and no larger than the chunk size. -/
theorem chunksOf_size (c : Nat) (hc : 1 ≤ c) :
    ∀ (l : List Member), ∀ b ∈ chunksOf c l, b ≠ [] ∧ b.length ≤ c
  | [] => by rw [chunksOf]; simp
  | x :: xs => by
    rw [chunksOf]
    intro b hb
    rcases List.mem_cons.mp hb with hb | hb
    · subst hb
      refine ⟨by simp, ?_⟩
      have := List.length_take (c - 1) xs
      simp only [List.length_cons, this]
      omega
    · exact chunksOf_size c hc (xs.drop (c - 1)) b hb
termination_by l => l.length
decreasing_by simp [List.length_drop]; omega

/-- Every chunk except possibly the last has length exactly the chunk size. -/
theorem chunksOf_size_exact (c : Nat) (hc : 1 ≤ c) :
    ∀ (l : List Member) (i : Nat), i + 1 < (chunksOf c l).length →
      ((chunksOf c l).getD i []).length = c
  | [], i => by rw [chunksOf]; simp
  | x :: xs, 0 => by
    rw [chunksOf]
    intro h
    simp only [List.length_cons, Nat.add_lt_add_iff_right] at h
    have hch : chunksOf c (xs.drop (c - 1)) ≠ [] := by
      intro hnil
      rw [hnil] at h
      simp at h
    have hrest : xs.drop (c - 1) ≠ [] := by
      intro hnil
      exact hch ((chunksOf_eq_nil_iff c _).mpr hnil)
    have hlen : c - 1 < xs.length := by
      by_contra hle
      exact hrest (List.drop_eq_nil_iff.mpr (by omega))
    rw [List.getD_cons_zero]
    have := List.length_take (c - 1) xs
    simp only [List.length_cons, this]
    omega
  | x :: xs, i + 1 => by
    rw [chunksOf]
    intro h
    simp only [List.length_cons, Nat.add_lt_add_iff_right] at h
    rw [List.getD_cons_succ]
    exact chunksOf_size_exact c hc (xs.drop (c - 1)) i h
termination_by l => l.length
decreasing_by all_goals simp [List.length_drop]; omega

/-- C5: the scheduler partitions the URL-bearing subset into consecutive
chunks of the normalized (≥ 1) concurrency, awaits each chunk as one batch
(the trace is sequential: no event of a later batch precedes the settling of
an earlier one), and emits the normalized (≥ 0) delay strictly between
consecutive batches — never after the last. -/
theorem claim_C5_batch_partition (fetch : Str → Option MemberProfile)
    (members : List Member) (maxConcurrent delay : Option Int) :
    1 ≤ normMaxConcurrent maxConcurrent
    ∧ scrapeMultipleProfiles true fetch members maxConcurrent delay
        = Except.ok
            (members.map (fun m => if hasProfileUrl m then updateMember fetch m else m),
             batchTrace (normDelay delay)
               (chunksOf (normMaxConcurrent maxConcurrent) (members.filter hasProfileUrl)))
    ∧ (chunksOf (normMaxConcurrent maxConcurrent) (members.filter hasProfileUrl)).flatten
        = members.filter hasProfileUrl
    ∧ (∀ b ∈ chunksOf (normMaxConcurrent maxConcurrent) (members.filter hasProfileUrl),
        b ≠ [] ∧ b.length ≤ normMaxConcurrent maxConcurrent)
    ∧ (∀ i : Nat,
        i + 1 < (chunksOf (normMaxConcurrent maxConcurrent) (members.filter hasProfileUrl)).length →
        ((chunksOf (normMaxConcurrent maxConcurrent) (members.filter hasProfileUrl)).getD i []).length
          = normMaxConcurrent maxConcurrent) := by
  refine ⟨normMaxConcurrent_pos maxConcurrent, ?_, chunksOf_join _ _,
    chunksOf_size _ (normMaxConcurrent_pos maxConcurrent) _,
    chunksOf_size_exact _ (normMaxConcurrent_pos maxConcurrent) _⟩
  unfold scrapeMultipleProfiles
  simp only [Bool.not_true, Bool.false_eq_true, if_false, ite_false]
  rw [runBatches_fst, mergeUpdated_filter_map, runBatches_snd]

/-- A minimal member for scheduler tests. -/
def schedMember (nm url : Str) : Member :=
  { name := nm, party := FUMEI, profileUrl := some url }

/-- Three URL-bearing members: with concurrency 2 they form batches of sizes
2 and 1. -/
def schedMembers3 : List Member :=
  [schedMember ("a".data) ("https://a".data),
   schedMember ("b".data) ("https://b".data),
   schedMember ("c".data) ("https://c".data)]

/-- C5 witness: for three URL-bearing members and `maxConcurrent = 2`, the
non-final batch produced by the partition has size exactly 2. -/
theorem claim_C5_batch_partition_witness :
    ((chunksOf (normMaxConcurrent (some 2)) (schedMembers3.filter hasProfileUrl)).getD 0 []).length
      = normMaxConcurrent (some 2) :=
  (claim_C5_batch_partition fetchAlwaysFails schedMembers3 (some 2) (some 5)).2.2.2.2 0 (by
    have h : normMaxConcurrent (some 2) = 2 := by decide
    rw [h]
    norm_num [chunksOf, schedMembers3, schedMember, hasProfileUrl])

/-- Every prefecture name has at least two characters. -/
theorem pref_length_two : ∀ p ∈ PREFECTURES, 2 ≤ p.length := by decide

/-- No prefecture name contains an ASCII digit. -/
theorem pref_no_digit : ∀ p ∈ PREFECTURES, ∀ c ∈ p, c.isDigit = false := by decide

/-- No prefecture name contains the character `比`. -/
theorem pref_no_hi : ∀ p ∈ PREFECTURES, '比' ∉ p := by decide

/-- No prefecture name is a proper prefix of another (so the classifier's loop
order cannot make a wrong prefecture win). -/
theorem pref_prefix_free : ∀ p ∈ PREFECTURES, ∀ q ∈ PREFECTURES, q <+: p → q = p := by
  decide

/-- A substring occurrence forces every character of the pattern into the
searched string. -/
theorem mem_of_containsSub {pat : Str} :
    ∀ {s : Str}, containsSub pat s = true → ∀ c ∈ pat, c ∈ s := by
  intro s
  induction s with
  | nil =>
    intro h c hc
    rw [containsSub, List.isEmpty_iff] at h
    subst h
    cases hc
  | cons d rest ih =>
    intro h c hc
    rw [containsSub] at h
    rcases Bool.or_eq_true_iff.mp h with hpre | hrest
    · exact (List.isPrefixOf_iff_prefix.mp hpre).subset hc
    · exact List.mem_cons_of_mem d (ih hrest c hc)

/-- A nonempty all-digit string passes the `/^\d+$/` test. -/
theorem isAllDigits_of (n : Str) (hn : n ≠ []) (hd : ∀ c ∈ n, c.isDigit = true) :
    isAllDigits n = true := by
  unfold isAllDigits
  rw [Bool.and_eq_true, List.all_eq_true]
  refine ⟨?_, hd⟩
  rw [Bool.not_eq_true']
  rw [Bool.eq_false_iff, Ne, List.isEmpty_iff]
  exact hn

/-- Among the prefecture names, only `p` itself can match the classifier's
prefix-plus-digits test on `p ++ n`. -/
theorem prefecture_match_unique (p n : Str) (hp : p ∈ PREFECTURES) (_hn : n ≠ [])
    (hd : ∀ c ∈ n, c.isDigit = true) :
    ∀ q ∈ PREFECTURES, q.isPrefixOf (p ++ n) = true →
      isAllDigits ((p ++ n).drop q.length) = true → q = p := by
  intro q hq hpre _hdig
  rw [List.isPrefixOf_iff_prefix] at hpre
  by_cases hlen : q.length ≤ p.length
  · exact pref_prefix_free p hp q hq
      (List.prefix_of_prefix_length_le hpre (List.prefix_append p n) hlen)
  · push_neg at hlen
    have hpq : p <+: q :=
      List.prefix_of_prefix_length_le (List.prefix_append p n) hpre (le_of_lt hlen)
    obtain ⟨t, ht⟩ := hpq
    have htn : t <+: n := by
      rw [← ht] at hpre
      exact (List.prefix_append_right_inj p).mp hpre
    have htne : t ≠ [] := by
      intro h0
      rw [h0, List.append_nil] at ht
      rw [ht] at hlen
      omega
    match t, htne with
    | c :: t', _ =>
      have hcn : c ∈ n := htn.subset (List.mem_cons_self c t')
      have hcq : c ∈ q := by
        rw [← ht]
        exact List.mem_append_right p (List.mem_cons_self c t')
      have h1 := hd c hcn
      have h2 := pref_no_digit q hq c hcq
      rw [h1] at h2
      cases h2

/-- The classifier's prefecture loop, run on `p ++ n`, stops at `p` and
captures `n`, provided `p` is the only name that can match. -/
theorem findPrefNum_of_mem (p n : Str) (hn : n ≠ []) (hd : ∀ c ∈ n, c.isDigit = true) :
    ∀ (ps : List Str), p ∈ ps →
      (∀ q ∈ ps, q.isPrefixOf (p ++ n) = true →
        isAllDigits ((p ++ n).drop q.length) = true → q = p) →
      findPrefNum ps (p ++ n) = some (p, n) := by
  intro ps
  induction ps with
  | nil => intro h; cases h
  | cons q rest ih =>
    intro hmem huniq
    by_cases hcond : (q.isPrefixOf (p ++ n) && isAllDigits ((p ++ n).drop q.length)) = true
    · have hcond2 := hcond
      rw [Bool.and_eq_true] at hcond2
      obtain ⟨h1, h2⟩ := hcond2
      have hq : q = p := huniq q (List.mem_cons_self q rest) h1 h2
      subst hq
      rw [findPrefNum]
      simp only [hcond, if_true]
      rw [List.drop_left]
    · have hqp : q ≠ p := by
        intro h
        subst h
        apply hcond
        rw [Bool.and_eq_true]
        constructor
        · rw [List.isPrefixOf_iff_prefix]
          exact List.prefix_append q n
        · rw [List.drop_left]
          exact isAllDigits_of n hn hd
      have hmem' : p ∈ rest := by
        rcases List.mem_cons.mp hmem with h | h
        · exact absurd h.symm hqp
        · exact h
      rw [findPrefNum]
      simp only [hcond, if_false]
      exact ih hmem' (fun r hr => huniq r (List.mem_cons_of_mem q hr))

/-- C6: for every known prefecture name `p` and nonempty digit string `n`,
classifying `p ++ n` yields the single-seat descriptor with prefecture
exactly `p` and district number exactly the string `n` (no numeric
coercion). -/
theorem claim_C6_prefecture_digit (p n : Str) (hp : p ∈ PREFECTURES) (hn : n ≠ [])
    (hd : ∀ c ∈ n, c.isDigit = true) :
    parseElectionInfo (p ++ n) =
      { election := { system := .singleSeat, prefecture := some p, number := some n } } := by
  have hplen : 2 ≤ p.length := pref_length_two p hp
  have hnlen : 1 ≤ n.length := by
    have := List.length_pos.mpr hn
    omega
  have hA : (p ++ n).isEmpty = false := by
    rw [Bool.eq_false_iff, Ne, List.isEmpty_iff, List.append_eq_nil]
    intro h
    rw [h.1] at hplen
    simp at hplen
  have hB : ((p ++ n) == FUMEI) = false := by
    rw [beq_eq_false_iff_ne]
    intro h
    have := congrArg List.length h
    rw [List.length_append] at this
    have hf : FUMEI.length = 2 := by decide
    omega
  have hC : isAllDigits (p ++ n) = false := by
    rw [Bool.eq_false_iff]
    intro h
    rw [isAllDigits, Bool.and_eq_true, List.all_eq_true] at h
    match p, hplen with
    | c :: p', _ =>
      have hc : c.isDigit = true := h.2 c (by simp)
      have := pref_no_digit (c :: p') hp c (List.mem_cons_self c p')
      rw [hc] at this
      cases this
  have hhi : '比' ∉ p ++ n := by
    rw [List.mem_append]
    rintro (h | h)
    · exact pref_no_hi p hp h
    · have := hd '比' h
      simp [Char.isDigit] at this
  have hD1 : containsSub HI_MARK (p ++ n) = false := by
    rw [Bool.eq_false_iff]
    intro h
    exact hhi (mem_of_containsSub h '比' (by decide))
  have hD2 : containsSub HIREI (p ++ n) = false := by
    rw [Bool.eq_false_iff]
    intro h
    exact hhi (mem_of_containsSub h '比' (by decide))
  have hE : findPrefNum PREFECTURES (p ++ n) = some (p, n) :=
    findPrefNum_of_mem p n hn hd PREFECTURES hp (prefecture_match_unique p n hp hn hd)
  unfold parseElectionInfo
  rw [hA, hB, hC, hD1, hD2]
  simp only [Bool.or_self, Bool.false_eq_true, if_false, ite_false]
  rw [hE]

/-- C6 witness: `東京1` classifies to prefecture `東京`, district number the
string `1`. -/
theorem claim_C6_prefecture_digit_witness :
    parseElectionInfo ("東京".data ++ "1".data) =
      { election := { system := .singleSeat, prefecture := some ("東京".data),
                      number := some ("1".data) } } :=
  claim_C6_prefecture_digit ("東京".data) ("1".data) (by decide) (by decide) (by decide)

/-- `Set.has` modelled by list membership. -/
theorem strContains_iff (l : List Str) (x : Str) : l.contains x = true ↔ x ∈ l := by
  simp [List.contains, List.elem_iff]

/-- The full name of a built row record is its cleaned dedup key. -/
theorem buildMemberData_name_full (cells : List Cell) (cleanName href : Str) :
    (buildMemberData cells cleanName href).name.full = cleanName := rfl

/-- The row loop distributes over concatenation of row lists, threading the
seen-set through. -/
theorem extractGo_append :
    ∀ (a b : List (List Cell)) (seen : List Str),
      extractGo (a ++ b) seen = extractGo a seen ++ extractGo b (seenAfter a seen)
  | [], b, seen => by simp [extractGo, seenAfter]
  | row :: rest, b, seen => by
    rw [List.cons_append]
    cases h : rowNameHref row with
    | none => simp [extractGo, seenAfter, h, extractGo_append rest b seen]
    | some nh =>
      obtain ⟨name, href⟩ := nh
      by_cases h2 : (name.isEmpty || isHeaderKeyword name) = true
      · simp [extractGo, seenAfter, h, h2, extractGo_append rest b seen]
      · by_cases h3 : cleanNameOf name ∈ seen
        · simp [extractGo, seenAfter, h, h2, h3, extractGo_append rest b seen]
        · simp [extractGo, seenAfter, h, h2, h3,
            extractGo_append rest b (cleanNameOf name :: seen)]

/-- The emitted cleaned names are free of duplicates and disjoint from the
incoming seen-set. -/
theorem extractGo_names (rows : List (List Cell)) :
    ∀ (seen : List Str),
      ((extractGo rows seen).map (fun m => m.name.full)).Nodup
      ∧ ∀ x ∈ (extractGo rows seen).map (fun m => m.name.full), x ∉ seen := by
  induction rows with
  | nil => intro seen; simp [extractGo]
  | cons row rest ih =>
    intro seen
    cases h : rowNameHref row with
    | none => simpa [extractGo, h] using ih seen
    | some nh =>
      obtain ⟨name, href⟩ := nh
      by_cases h2 : (name.isEmpty || isHeaderKeyword name) = true
      · simpa [extractGo, h, h2] using ih seen
      · by_cases h3 : cleanNameOf name ∈ seen
        · simpa [extractGo, h, h2, h3] using ih seen
        · have ihh := ih (cleanNameOf name :: seen)
          constructor
          · simp only [extractGo, h, h2, h3, Bool.false_eq_true, if_false, ite_false,
              List.map_cons, buildMemberData_name_full, strContains_iff]
            rw [List.nodup_cons]
            constructor
            · intro hmem
              have := ihh.2 (cleanNameOf name) hmem
              exact this (List.mem_cons_self _ _)
            · exact ihh.1
          · simp only [extractGo, h, h2, h3, Bool.false_eq_true, if_false, ite_false,
              List.map_cons, buildMemberData_name_full, strContains_iff]
            intro x hx
            rcases List.mem_cons.mp hx with hx | hx
            · subst hx; exact h3
            · have := ihh.2 x hx
              intro hxseen
              exact this (List.mem_cons_of_mem _ hxseen)

/-- Membership in the seen-set after a run: the incoming seen-set plus the
cleaned names the run emitted. -/
theorem seenAfter_mem (rows : List (List Cell)) :
    ∀ (seen : List Str) (x : Str),
      x ∈ seenAfter rows seen ↔
        x ∈ seen ∨ x ∈ (extractGo rows seen).map (fun m => m.name.full) := by
  induction rows with
  | nil => intro seen x; simp [extractGo, seenAfter]
  | cons row rest ih =>
    intro seen x
    cases h : rowNameHref row with
    | none => simp [extractGo, seenAfter, h, ih seen x]
    | some nh =>
      obtain ⟨name, href⟩ := nh
      by_cases h2 : (name.isEmpty || isHeaderKeyword name) = true
      · simp [extractGo, seenAfter, h, h2, ih seen x]
      · by_cases h3 : cleanNameOf name ∈ seen
        · simp [extractGo, seenAfter, h, h2, h3, ih seen x]
        · simp only [extractGo, seenAfter, h, h2, h3, Bool.false_eq_true, if_false, ite_false,
            List.map_cons, buildMemberData_name_full, ih (cleanNameOf name :: seen) x,
            List.mem_cons, strContains_iff]
          tauto

/-- C10: the row extractor's dedup key is the honorific-stripped trimmed name;
the emitted records carry pairwise-distinct cleaned names (so each cleaned
name gets exactly one record, the first occurrence's), and a later row whose
cleaned name was already emitted contributes nothing at all to the output. -/
theorem claim_C10_honorific_dedup (rows pre post : List (List Cell)) (row : List Cell) :
    ((extractMembersFromPage rows).map (fun m => m.name.full)).Nodup
    ∧ (rows = pre ++ row :: post →
        ∀ name href, rowNameHref row = some (name, href) →
          (name.isEmpty || isHeaderKeyword name) = false →
          cleanNameOf name ∈ (extractMembersFromPage pre).map (fun m => m.name.full) →
          extractMembersFromPage rows = extractMembersFromPage (pre ++ post)) := by
  constructor
  · exact (extractGo_names rows []).1
  · intro hrows name href hname hguards hdup
    subst hrows
    unfold extractMembersFromPage at hdup ⊢
    rw [extractGo_append pre (row :: post) [], extractGo_append pre post []]
    have hseen : cleanNameOf name ∈ seenAfter pre [] := by
      rw [seenAfter_mem pre [] (cleanNameOf name)]
      exact Or.inr hdup
    have hskip : extractGo (row :: post) (seenAfter pre [])
        = extractGo post (seenAfter pre []) := by
      simp [extractGo, hname, hguards, hseen]
    rw [hskip]

/-- Two sample rows whose names differ only by the honorific suffix `君`. -/
def dedupRow1 : List Cell :=
  [⟨"山田".data, none⟩, ⟨"やま".data, none⟩, ⟨"自由民主党".data, none⟩]

/-- The later duplicate row. -/
def dedupRow2 : List Cell :=
  [⟨"山田君".data, none⟩, ⟨"やま".data, none⟩, ⟨"公明党".data, none⟩]

/-- C10 witness: the page `[山田-row, 山田君-row]` extracts exactly what the
page `[山田-row]` extracts — the later honorific-suffixed duplicate is
dropped, keeping the first occurrence's record. -/
theorem claim_C10_honorific_dedup_witness :
    extractMembersFromPage [dedupRow1, dedupRow2]
      = extractMembersFromPage ([dedupRow1] ++ []) :=
  (claim_C10_honorific_dedup [dedupRow1, dedupRow2] [dedupRow1] [] dedupRow2).2
    rfl ("山田君".data) [] (by decide) (by decide) (by decide)
